import Mathlib

/-!
Verification of the Phonebook repository (`phonebook/model.py`,
`phonebook/storage.py`, `phonebook/repository.py`, `phonebook/controller.py`)
against its natural-language specification.

Python strings are modelled as `List Char` (named `Str` below); Python's
`str.strip`, `str.lower`, `str.splitlines`, `str.split('\t')`, the `in`
substring operator and `int(...)` parsing are given executable shallow
embeddings.  Unicode-only behaviours that no claim exercises are narrowed to
ASCII: `\d` in the phone regex is modelled as the ASCII digits, `str.lower`
as ASCII lowercasing, and `str.strip` as removing the six ASCII whitespace
characters.
-/

namespace Phone

/-- Python strings, modelled as lists of characters. -/
abbrev Str := List Char

/-- ASCII whitespace, as removed by Python's `str.strip()`. -/
def pyIsSpace (c : Char) : Bool :=
  c = ' ' || c = '\t' || c = '\n' || c = '\r' || c = '\x0b' || c = '\x0c'

/-- Python `s.strip()`: drop whitespace from both ends. -/
def pyStrip (s : Str) : Str :=
  List.rdropWhile pyIsSpace (List.dropWhile pyIsSpace s)

/-- Python `s.lower()`, restricted to ASCII case folding. -/
def pyLower (s : Str) : Str := s.map Char.toLower

/-- Python's substring operator `q in s`. -/
def isSubstr (q : Str) : Str → Bool
  | [] => q.isEmpty
  | c :: t => q.isPrefixOf (c :: t) || isSubstr q t

/-- Decimal value of a digit run (most significant first). -/
def digitsVal (s : Str) : Nat :=
  s.foldl (fun a c => a * 10 + (c.toNat - 48)) 0

/-- After the first digit of a Python integer literal body: digits, with
single underscores allowed between digits. -/
def uDigitsTail : Str → Bool
  | [] => true
  | c :: rest =>
    if c = '_' then
      match rest with
      | [] => false
      | d :: rest2 => d.isDigit && uDigitsTail rest2
    else c.isDigit && uDigitsTail rest

/-- Body of a Python integer literal (after the sign): a digit, then digits with
single underscores allowed between digits. -/
def uDigitsOk : Str → Bool
  | [] => false
  | c :: rest => c.isDigit && uDigitsTail rest

/-- Parse an unsigned Python integer body, underscores allowed as in `int`. -/
def parseUDigits (s : Str) : Option Nat :=
  if uDigitsOk s then some (digitsVal (s.filter (fun c => c ≠ '_'))) else none

/-- Python `int(s)` on a decimal string: strips whitespace, optional sign,
then digits with underscore separators.  Returns `none` where Python raises
`ValueError`. -/
def pyInt (s : Str) : Option Int :=
  match pyStrip s with
  | '+' :: rest => (parseUDigits rest).map Int.ofNat
  | '-' :: rest => (parseUDigits rest).map (fun n => -(Int.ofNat n))
  | rest => (parseUDigits rest).map Int.ofNat

/-- `phonebook/exceptions.py` is not part of the sources; its error classes
are only names.  Modelled from the spec: the three recoverable error kinds. -/
inductive PBError
  | validation
  | notFound
deriving DecidableEq, Repr

/-- Storage-level failure (`StorageError`). -/
inductive StorageErr
  | notAFile
  | parseError
  | ioFailure
deriving DecidableEq, Repr

/-- Characters allowed after the leading character of a phone number:
`[\d\- ()]` in `_PHONE_REGEX`. -/
def isPhoneTailChar (c : Char) : Bool :=
  c.isDigit || c = '-' || c = ' ' || c = '(' || c = ')'

/-- `_PHONE_REGEX = ^[+\d][\d\- ()]{5,}$` applied to a whole string
(the argument is already stripped, so the `$` anchor is exact). -/
def phoneRegexMatch : Str → Bool
  | [] => false
  | c :: rest =>
    (c = '+' || c.isDigit) && decide (5 ≤ rest.length) && rest.all isPhoneTailChar

/-- `model._validate_name`: strip; error if empty. -/
def validate_name (name : Str) : Except PBError Str :=
  let nc := pyStrip name
  if nc.isEmpty then .error .validation else .ok nc

/-- `model._validate_phone`: strip; error unless the regex matches. -/
def validate_phone (phone : Str) : Except PBError Str :=
  let pc := pyStrip phone
  if phoneRegexMatch pc then .ok pc else .error .validation

/-- `model.Contact` dataclass. -/
structure Contact where
  id : Int
  name : Str
  phone : Str
  comment : Str
deriving DecidableEq, Repr

/-- `model.Phonebook`: insertion-ordered id→Contact mapping (the key of each
entry is the entry's own `id` field, as everywhere in the source), next-id
counter and dirty flag. -/
structure Phonebook where
  contacts : List Contact
  next_id : Int
  dirty : Bool
deriving DecidableEq, Repr

/-- `Phonebook.__init__`. -/
def Phonebook.init : Phonebook := ⟨[], 1, false⟩

/-- Python `dict.__setitem__` keyed by contact id: overwrite in place if the
key exists, else append (insertion order preserved). -/
def dictSet (m : List Contact) (c : Contact) : List Contact :=
  if m.any (fun x => x.id = c.id) then
    m.map (fun x => if x.id = c.id then c else x)
  else m ++ [c]

/-- Python `dict` comprehension `{c.id: c for c in cs}`: first occurrence
keeps its position, last value wins. -/
def dictOfList (cs : List Contact) : List Contact :=
  cs.foldl dictSet []

/-- `dict.get` keyed by id. -/
def dictGet (m : List Contact) (i : Int) : Option Contact :=
  m.find? (fun x => x.id = i)

/-- Maximum of a list of keys, `max(ks, default=0)`. -/
def maxOr0 : List Int → Int
  | [] => 0
  | x :: xs => xs.foldl max x

/-- `Phonebook.mark_clean`. -/
def Phonebook.mark_clean (pb : Phonebook) : Phonebook := { pb with dirty := false }

/-- `Phonebook.replace_all`: rebuild the mapping from the given list, set
`next_id = max(keys, default=0) + 1`, mark clean. -/
def Phonebook.replace_all (pb : Phonebook) (cs : List Contact) : Phonebook :=
  let m := dictOfList cs
  { pb with
    contacts := m
    next_id := maxOr0 (m.map (·.id)) + 1
    dirty := false }

/-- `Phonebook.add`: validate name then phone, build the contact with the
current counter value, insert, bump the counter, mark dirty.  On a
validation error the state is returned unchanged (the Python exception
propagates before any mutation). -/
def Phonebook.add (pb : Phonebook) (name phone comment : Str) :
    Except PBError Contact × Phonebook :=
  match validate_name name with
  | .error e => (.error e, pb)
  | .ok n =>
    match validate_phone phone with
    | .error e => (.error e, pb)
    | .ok p =>
      let c : Contact := ⟨pb.next_id, n, p, pyStrip comment⟩
      (.ok c, ⟨dictSet pb.contacts c, pb.next_id + 1, true⟩)

/-- `Phonebook.get`: lookup or `ContactNotFound`. -/
def Phonebook.get (pb : Phonebook) (cid : Int) : Except PBError Contact :=
  match dictGet pb.contacts cid with
  | some c => .ok c
  | none => .error .notFound

/-- Optional-field helper of `Phonebook.update`: `None` keeps the current
value, a provided value is passed through the validator. -/
def optField (f : Str → Except PBError Str) (cur : Str) : Option Str → Except PBError Str
  | none => .ok cur
  | some v => f v

/-- `Phonebook.update`: fetch, re-validate provided name/phone, strip a
provided comment, replace the entry under the same id, mark dirty.  Errors
leave the state unchanged. -/
def Phonebook.update (pb : Phonebook) (cid : Int)
    (name phone comment : Option Str) : Except PBError Contact × Phonebook :=
  match pb.get cid with
  | .error e => (.error e, pb)
  | .ok ex =>
    match optField validate_name ex.name name with
    | .error e => (.error e, pb)
    | .ok nn =>
      match optField validate_phone ex.phone phone with
      | .error e => (.error e, pb)
      | .ok np =>
        let nc := match comment with | none => ex.comment | some c => pyStrip c
        let u : Contact := ⟨ex.id, nn, np, nc⟩
        (.ok u, { pb with contacts := dictSet pb.contacts u, dirty := true })

/-- `Phonebook.delete`: remove the entry if present and mark dirty, else
`ContactNotFound`. -/
def Phonebook.delete (pb : Phonebook) (cid : Int) :
    Except PBError Unit × Phonebook :=
  if pb.contacts.any (fun c => c.id = cid) then
    (.ok (), { pb with contacts := pb.contacts.filter (fun c => c.id ≠ cid), dirty := true })
  else (.error .notFound, pb)

/-- Free-text match of `Phonebook.search` / `repository.search`: the
lowered query occurs in the lowered name, phone or comment. -/
def matchQ (q : Str) (c : Contact) : Bool :=
  isSubstr q (pyLower c.name) || isSubstr q (pyLower c.phone) || isSubstr q (pyLower c.comment)

/-- `Phonebook.search`: empty (after strip) query returns `[]`; otherwise
filter in map-iteration order. -/
def Phonebook.search (pb : Phonebook) (query : Str) : List Contact :=
  let q := pyLower (pyStrip query)
  if q.isEmpty then [] else pb.contacts.filter (matchQ q)

/-- `Phonebook.search_by_fields`: each non-empty stripped lowered filter
must match its field; empty filters impose no constraint. -/
def Phonebook.search_by_fields (pb : Phonebook)
    (name phone comment : Option Str) : List Contact :=
  let nq := pyLower (pyStrip (name.getD []))
  let pq := pyLower (pyStrip (phone.getD []))
  let cq := pyLower (pyStrip (comment.getD []))
  pb.contacts.filter (fun c =>
    (nq.isEmpty || isSubstr nq (pyLower c.name)) &&
    (pq.isEmpty || isSubstr pq (pyLower c.phone)) &&
    (cq.isEmpty || isSubstr cq (pyLower c.comment)))

/-- Python line-boundary characters recognised by `str.splitlines`. -/
def isLineBreak (c : Char) : Bool :=
  c = '\n' || c = '\r' || c = '\x0b' || c = '\x0c' || c = '\x1c' ||
  c = '\x1d' || c = '\x1e' || c = '\x85' || c = '\u2028' || c = '\u2029'

/-- Python `s.splitlines()`: split at line boundaries (`\r\n` counts as a
single boundary), with no empty final line when the text ends in one. -/
def splitLines : Str → List Str
  | [] => []
  | c :: rest =>
    if c = '\r' then
      match rest with
      | [] => [] :: splitLines []
      | d :: rest2 =>
        if d = '\n' then [] :: splitLines rest2 else [] :: splitLines (d :: rest2)
    else if isLineBreak c then [] :: splitLines rest
    else
      match splitLines rest with
      | [] => [[c]]
      | l :: ls => (c :: l) :: ls

/-- Python `s.split('\t')`: always at least one part, empty parts kept. -/
def pySplitTab : Str → List Str
  | [] => [[]]
  | c :: rest =>
    if c = '\t' then [] :: pySplitTab rest
    else
      match pySplitTab rest with
      | [] => [[c]]
      | p :: ps => (c :: p) :: ps

/-- `TxtStorage.load`, per line: pad the tab-split parts to 4 fields with
empty strings (`parts + [""] * (4 - len(parts))`). -/
def padTo4 (ps : List Str) : List Str :=
  if ps.length < 4 then ps ++ List.replicate (4 - ps.length) [] else ps

/-- Parse the four padded fields of one line: field 1 through `int` (a
failure ⇒ `StorageError`), the other three stripped at `Contact(...)`. -/
def parseLine (line : Str) : Except StorageErr Contact :=
  match pyInt ((padTo4 (pySplitTab line)).getD 0 []) with
  | some i =>
    .ok ⟨i, pyStrip ((padTo4 (pySplitTab line)).getD 1 []),
      pyStrip ((padTo4 (pySplitTab line)).getD 2 []),
      pyStrip ((padTo4 (pySplitTab line)).getD 3 [])⟩
  | none => .error .parseError

/-- The loop body of `TxtStorage.load`: blank lines are skipped, a parse
failure aborts the whole load. -/
def loadLines : List Str → Except StorageErr (List Contact)
  | [] => .ok []
  | l :: rest =>
    if (pyStrip l).isEmpty then loadLines rest
    else
      match parseLine l with
      | .error e => .error e
      | .ok c => (loadLines rest).map (fun cs => c :: cs)

/-- What the filesystem holds at the storage path. -/
inductive PathState
  | missing
  | notAFile
  | file (content : Str)
deriving DecidableEq, Repr

/-- `TxtStorage.load`: empty list when the path does not exist,
`StorageError` when it is not a regular file, else parse the text. -/
def TxtStorage.load : PathState → Except StorageErr (List Contact)
  | .missing => .ok []
  | .notAFile => .error .notAFile
  | .file t => loadLines (splitLines t)

/-- Replace embedded `\n` by a space, as `save` does per field. -/
def replNl (s : Str) : Str := s.map (fun c => if c = '\n' then ' ' else c)

/-- Decimal digits of a natural number, most significant first; the fuel
argument keeps the recursion structural (`natToStr` supplies enough). -/
def natToStrAux : Nat → Nat → Str
  | 0, _ => []
  | f + 1, n =>
    if n < 10 then [Nat.digitChar n]
    else natToStrAux f (n / 10) ++ [Nat.digitChar (n % 10)]

/-- Python `str(n)` for a natural number. -/
def natToStr (n : Nat) : Str := natToStrAux (n + 1) n

/-- Python `str(i)` for an integer. -/
def intToStr (i : Int) : Str :=
  if i < 0 then '-' :: natToStr i.natAbs else natToStr i.natAbs

/-- One line of `TxtStorage.save`: `f"{id}\t{name}\t{phone}\t{comment}"`
with `\n` replaced by a space in each field. -/
def saveLine (c : Contact) : Str :=
  intToStr c.id ++ '\t' :: replNl c.name ++ '\t' :: replNl c.phone ++ '\t' :: replNl c.comment

/-- Python `"\n".join(lines)`. -/
def joinNl : List Str → Str
  | [] => []
  | [l] => l
  | l :: l2 :: ls => l ++ '\n' :: joinNl (l2 :: ls)

/-- The text written by `TxtStorage.save`: joined lines plus a trailing
newline iff the list is non-empty. -/
def saveText (cs : List Contact) : Str :=
  let lines := cs.map saveLine
  joinNl lines ++ (if lines.isEmpty then [] else ['\n'])

/-- `TxtStorage.save`: after the atomic temp-write-and-replace the path
holds exactly the serialized text. -/
def TxtStorage.save (cs : List Contact) : PathState := .file (saveText cs)

/-- `PhonebookController._save` (storage part): on a successful write the
model is marked clean, on an `OSError` (wrapped as `StorageError`) the model
is left untouched. -/
def controllerSave (pb : Phonebook) (writeOk : Bool) :
    Except StorageErr Unit × Phonebook :=
  if writeOk then (.ok (), pb.mark_clean) else (.error .ioFailure, pb)

/-- Lexicographic strict order on strings by code point (Python `<`). -/
def strLtB : Str → Str → Bool
  | [], [] => false
  | [], _ :: _ => true
  | _ :: _, [] => false
  | a :: as, b :: bs => if a < b then true else if b < a then false else strLtB as bs

/-- The comparison Python's `sorted` performs on the key tuples
`(c.name.lower(), c.id) ≤ (d.name.lower(), d.id)`: lexicographic, strings
compared by code point. -/
def contactLE (c d : Contact) : Prop :=
  strLtB (pyLower c.name) (pyLower d.name) = true ∨
    (pyLower c.name = pyLower d.name ∧ c.id ≤ d.id)

instance : DecidableRel contactLE := fun c d => by
  unfold contactLE; infer_instance

/-- `sorted(xs, key=lambda c: (c.name.lower(), c.id))`: stable insertion
sort under the key order. -/
def pySorted (cs : List Contact) : List Contact :=
  cs.insertionSort contactLE

/-- `Phonebook.list`: all contacts sorted by `(name.lower(), id)`. -/
def Phonebook.list (pb : Phonebook) : List Contact := pySorted pb.contacts

/-- `repository.search`: same emptiness test and match as the model variant,
but the result is sorted by `(name.lower(), id)`. -/
def repoSearch (contacts : List Contact) (query : Str) : List Contact :=
  let q := pyLower (pyStrip query)
  if q.isEmpty then [] else pySorted (contacts.filter (matchQ q))

/-- One observable Directory transition (the controller's calls into the
model: mutations, `replace_all` after a load, `mark_clean` after a save). -/
inductive Step : Phonebook → Phonebook → Prop
  | add (pb : Phonebook) (name phone comment : Str) : Step pb (pb.add name phone comment).2
  | update (pb : Phonebook) (cid : Int) (name phone comment : Option Str) :
      Step pb (pb.update cid name phone comment).2
  | delete (pb : Phonebook) (cid : Int) : Step pb (pb.delete cid).2
  | replace_all (pb : Phonebook) (cs : List Contact) : Step pb (pb.replace_all cs)
  | mark_clean (pb : Phonebook) : Step pb pb.mark_clean

/-- Directory states reachable from the fresh directory. -/
inductive Reachable : Phonebook → Prop
  | init : Reachable Phonebook.init
  | step {pb pb' : Phonebook} : Reachable pb → Step pb pb' → Reachable pb'

/-- Transitions as in `Step`, except that `replace_all` is only applied to
contact lists whose names are non-blank (pre-validated input, as the spec
assumes for storage loads). -/
inductive StepV : Phonebook → Phonebook → Prop
  | add (pb : Phonebook) (name phone comment : Str) : StepV pb (pb.add name phone comment).2
  | update (pb : Phonebook) (cid : Int) (name phone comment : Option Str) :
      StepV pb (pb.update cid name phone comment).2
  | delete (pb : Phonebook) (cid : Int) : StepV pb (pb.delete cid).2
  | replace_all (pb : Phonebook) (cs : List Contact)
      (h : ∀ c ∈ cs, pyStrip c.name ≠ []) : StepV pb (pb.replace_all cs)
  | mark_clean (pb : Phonebook) : StepV pb pb.mark_clean

/-- Reachability under `StepV`. -/
inductive ReachableV : Phonebook → Prop
  | init : ReachableV Phonebook.init
  | step {pb pb' : Phonebook} : ReachableV pb → StepV pb pb' → ReachableV pb'

/-! ### Basic facts about the model operations -/

theorem add_error_snd (pb : Phonebook) (n p c : Str) (e : PBError)
    (h : (pb.add n p c).1 = .error e) : (pb.add n p c).2 = pb := by
  cases hn : validate_name n with
  | error e1 => simp [Phonebook.add, hn]
  | ok n1 =>
    cases hp : validate_phone p with
    | error e2 => simp [Phonebook.add, hn, hp]
    | ok p1 => simp [Phonebook.add, hn, hp] at h

theorem validate_name_ok {n r : Str} (h : validate_name n = .ok r) :
    r = pyStrip n ∧ pyStrip n ≠ [] := by
  by_cases hc : (pyStrip n).isEmpty
  · simp [validate_name, hc] at h
  · simp [validate_name, hc] at h
    exact ⟨h.symm, by simpa using hc⟩

theorem validate_phone_ok {p r : Str} (h : validate_phone p = .ok r) :
    r = pyStrip p ∧ phoneRegexMatch (pyStrip p) = true := by
  by_cases hc : phoneRegexMatch (pyStrip p) = true
  · simp [validate_phone, hc] at h
    exact ⟨h.symm, hc⟩
  · simp [validate_phone, hc] at h

theorem add_ok_parts (pb : Phonebook) (n p c : Str) (r : Contact) (pb2 : Phonebook)
    (h : pb.add n p c = (.ok r, pb2)) :
    r = ⟨pb.next_id, pyStrip n, pyStrip p, pyStrip c⟩ ∧
      pb2 = ⟨dictSet pb.contacts r, pb.next_id + 1, true⟩ ∧
      pyStrip n ≠ [] ∧ phoneRegexMatch (pyStrip p) = true := by
  cases hn : validate_name n with
  | error e1 => simp [Phonebook.add, hn] at h
  | ok n1 =>
    cases hp : validate_phone p with
    | error e2 => simp [Phonebook.add, hn, hp] at h
    | ok p1 =>
      obtain ⟨hn', hne⟩ := validate_name_ok hn
      obtain ⟨hp', hpm⟩ := validate_phone_ok hp
      subst hn' hp'
      simp [Phonebook.add, hn, hp] at h
      obtain ⟨h1, h2⟩ := h
      subst h1
      exact ⟨rfl, h2.symm, hne, hpm⟩

theorem update_error_snd (pb : Phonebook) (cid : Int) (n p c : Option Str) (e : PBError)
    (h : (pb.update cid n p c).1 = .error e) : (pb.update cid n p c).2 = pb := by
  cases hg : pb.get cid with
  | error e1 => simp [Phonebook.update, hg]
  | ok ex =>
    cases hn : optField validate_name ex.name n with
    | error e2 => simp [Phonebook.update, hg, hn]
    | ok nn =>
      cases hp : optField validate_phone ex.phone p with
      | error e3 => simp [Phonebook.update, hg, hn, hp]
      | ok np => simp [Phonebook.update, hg, hn, hp] at h

theorem update_ok_parts (pb : Phonebook) (cid : Int) (n p c : Option Str)
    (r : Contact) (pb2 : Phonebook) (h : pb.update cid n p c = (.ok r, pb2)) :
    ∃ ex, pb.get cid = .ok ex ∧ r.id = ex.id ∧
      pb2 = { pb with contacts := dictSet pb.contacts r, dirty := true } ∧
      optField validate_name ex.name n = .ok r.name := by
  cases hg : pb.get cid with
  | error e1 => simp [Phonebook.update, hg] at h
  | ok ex =>
    cases hn : optField validate_name ex.name n with
    | error e2 => simp [Phonebook.update, hg, hn] at h
    | ok nn =>
      cases hp : optField validate_phone ex.phone p with
      | error e3 => simp [Phonebook.update, hg, hn, hp] at h
      | ok np =>
        simp [Phonebook.update, hg, hn, hp] at h
        obtain ⟨h1, h2⟩ := h
        subst h2
        exact ⟨ex, rfl, by rw [← h1], by rw [← h1], by rw [← h1]; exact hn⟩

theorem delete_error_snd (pb : Phonebook) (cid : Int) (e : PBError)
    (h : (pb.delete cid).1 = .error e) : (pb.delete cid).2 = pb := by
  by_cases hc : (pb.contacts.any fun c => decide (c.id = cid)) = true
  · simp [Phonebook.delete, hc] at h
  · simp [Phonebook.delete, hc]

theorem delete_ok_parts (pb : Phonebook) (cid : Int) (pb2 : Phonebook) (u : Unit)
    (h : pb.delete cid = (.ok u, pb2)) :
    pb2.dirty = true ∧ pb2.next_id = pb.next_id ∧
      ∀ x ∈ pb2.contacts, x ∈ pb.contacts := by
  by_cases hc : (pb.contacts.any fun c => decide (c.id = cid)) = true
  · simp [Phonebook.delete, hc] at h
    rw [← h]
    exact ⟨rfl, rfl, fun x hx => List.mem_of_mem_filter hx⟩
  · simp [Phonebook.delete, hc] at h

/-- C4: the dirty flag starts clean, every successful `add`/`update`/`delete`
sets it, `replace_all` and a successful controller save clear it, and every
failed operation leaves the whole state (hence the flag) unchanged. -/
theorem C4_dirty_state_machine :
    Phonebook.init.dirty = false ∧
    (∀ pb n p c r pb2, Phonebook.add pb n p c = (.ok r, pb2) → pb2.dirty = true) ∧
    (∀ pb cid n p c r pb2, Phonebook.update pb cid n p c = (.ok r, pb2) → pb2.dirty = true) ∧
    (∀ pb cid u pb2, Phonebook.delete pb cid = (.ok u, pb2) → pb2.dirty = true) ∧
    (∀ pb cs, (Phonebook.replace_all pb cs).dirty = false) ∧
    (∀ pb, (controllerSave pb true).2.dirty = false) ∧
    (∀ pb n p c e, (Phonebook.add pb n p c).1 = .error e →
      (Phonebook.add pb n p c).2.dirty = pb.dirty) ∧
    (∀ pb cid n p c e, (Phonebook.update pb cid n p c).1 = .error e →
      (Phonebook.update pb cid n p c).2.dirty = pb.dirty) ∧
    (∀ pb cid e, (Phonebook.delete pb cid).1 = .error e →
      (Phonebook.delete pb cid).2.dirty = pb.dirty) ∧
    (∀ pb, (controllerSave pb false).2.dirty = pb.dirty) := by
  refine ⟨rfl, ?_, ?_, ?_, ?_, ?_, ?_, ?_, ?_, ?_⟩
  · intro pb n p c r pb2 h
    obtain ⟨-, h2, -, -⟩ := add_ok_parts pb n p c r pb2 h
    rw [h2]
  · intro pb cid n p c r pb2 h
    obtain ⟨ex, -, -, h3, -⟩ := update_ok_parts pb cid n p c r pb2 h
    rw [h3]
  · intro pb cid u pb2 h
    exact (delete_ok_parts pb cid pb2 u h).1
  · intro pb cs
    rfl
  · intro pb
    rfl
  · intro pb n p c e h
    rw [add_error_snd pb n p c e h]
  · intro pb cid n p c e h
    rw [update_error_snd pb cid n p c e h]
  · intro pb cid e h
    rw [delete_error_snd pb cid e h]
  · intro pb
    rfl

/-- Witness for C4 at concrete inputs. -/
theorem C4_dirty_state_machine_witness :
    ((Phonebook.init.add "A".data "123456".data []).2.dirty = true) ∧
    (((Phonebook.init.add "A".data "123456".data []).2.update 1 none none
        (some "x".data)).2.dirty = true) ∧
    (((Phonebook.init.add "A".data "123456".data []).2.delete 1).2.dirty = true) ∧
    ((Phonebook.init.add " ".data "123456".data []).2.dirty = Phonebook.init.dirty) ∧
    ((Phonebook.init.update 1 none none none).2.dirty = Phonebook.init.dirty) ∧
    ((Phonebook.init.delete 1).2.dirty = Phonebook.init.dirty) := by
  refine ⟨?_, ?_, ?_, ?_, ?_, ?_⟩
  · exact C4_dirty_state_machine.2.1 Phonebook.init "A".data "123456".data [] _ _ rfl
  · exact C4_dirty_state_machine.2.2.1 (Phonebook.init.add "A".data "123456".data []).2
      1 none none (some "x".data) _ _ rfl
  · exact C4_dirty_state_machine.2.2.2.1 (Phonebook.init.add "A".data "123456".data []).2
      1 () _ rfl
  · exact C4_dirty_state_machine.2.2.2.2.2.2.1 Phonebook.init " ".data "123456".data []
      PBError.validation rfl
  · exact C4_dirty_state_machine.2.2.2.2.2.2.2.1 Phonebook.init 1 none none none
      PBError.notFound rfl
  · exact C4_dirty_state_machine.2.2.2.2.2.2.2.2.1 Phonebook.init 1 PBError.notFound rfl

/-- C5: an `add` or `update` that fails with `ValidationError` leaves the
whole directory state (contacts, counter, dirty flag) unchanged. -/
theorem C5_validation_leaves_state :
    (∀ pb n p c, (Phonebook.add pb n p c).1 = .error .validation →
      (Phonebook.add pb n p c).2 = pb) ∧
    (∀ pb cid n p c, (Phonebook.update pb cid n p c).1 = .error .validation →
      (Phonebook.update pb cid n p c).2 = pb) := by
  exact ⟨fun pb n p c h => add_error_snd pb n p c _ h,
    fun pb cid n p c h => update_error_snd pb cid n p c _ h⟩

/-- Witness for C5 at concrete inputs. -/
theorem C5_validation_leaves_state_witness :
    ((Phonebook.init.add "  ".data "123456".data []).2 = Phonebook.init) ∧
    (((Phonebook.init.add "A".data "123456".data []).2.update 1 none
        (some "9".data) none).2 = (Phonebook.init.add "A".data "123456".data []).2) := by
  exact ⟨C5_validation_leaves_state.1 Phonebook.init "  ".data "123456".data [] rfl,
    C5_validation_leaves_state.2 (Phonebook.init.add "A".data "123456".data []).2
      1 none (some "9".data) none rfl⟩

/-- C7: `search` on a query that trims to empty returns nothing, while
`search_by_fields` with all three filters omitted-or-blank returns every
contact of the directory. -/
theorem C7_empty_query_asymmetry :
    (∀ pb q, pyStrip q = [] → Phonebook.search pb q = []) ∧
    (∀ pb name phone comment,
      pyStrip (name.getD []) = [] → pyStrip (phone.getD []) = [] →
      pyStrip (comment.getD []) = [] →
      Phonebook.search_by_fields pb name phone comment = pb.contacts) := by
  constructor
  · intro pb q h
    simp [Phonebook.search, h, pyLower]
  · intro pb name phone comment h1 h2 h3
    simp [Phonebook.search_by_fields, h1, h2, h3, pyLower]

/-- Witness for C7 at concrete inputs. -/
theorem C7_empty_query_asymmetry_witness :
    (Phonebook.init.add "A".data "123456".data []).2.search "  ".data = [] ∧
    (Phonebook.init.add "A".data "123456".data []).2.search_by_fields
        (some " ".data) none none =
      (Phonebook.init.add "A".data "123456".data []).2.contacts := by
  exact ⟨C7_empty_query_asymmetry.1 _ _ (by decide),
    C7_empty_query_asymmetry.2 _ _ _ _ (by decide) (by decide) (by decide)⟩

/-! ### C2: the phone grammar -/

/-- The phone grammar in the spec's words (§4.1): the first character is `+`
or a digit, followed by 5 or more characters drawn from
{digit, `-`, space, `(`, `)`}. -/
def specPhoneGrammar (t : Str) : Prop :=
  ∃ c rest, t = c :: rest ∧ (c = '+' ∨ c.isDigit = true) ∧ 5 ≤ rest.length ∧
    ∀ d ∈ rest, d.isDigit = true ∨ d = '-' ∨ d = ' ' ∨ d = '(' ∨ d = ')'

theorem phoneRegexMatch_iff (t : Str) : phoneRegexMatch t = true ↔ specPhoneGrammar t := by
  cases t with
  | nil =>
    simp only [phoneRegexMatch, specPhoneGrammar]
    constructor
    · intro h; cases h
    · rintro ⟨c, rest, h, -⟩; cases h
  | cons c rest =>
    simp only [phoneRegexMatch, specPhoneGrammar, Bool.and_eq_true, Bool.or_eq_true,
      decide_eq_true_eq, List.all_eq_true]
    constructor
    · rintro ⟨⟨hc, hlen⟩, hall⟩
      exact ⟨c, rest, rfl, hc, hlen, fun d hd => by
        have := hall d hd
        simp only [isPhoneTailChar, Bool.or_eq_true, decide_eq_true_eq] at this
        tauto⟩
    · rintro ⟨c', rest', heq, hc, hlen, hall⟩
      obtain ⟨rfl, rfl⟩ : c = c' ∧ rest = rest' := by
        injection heq with h1 h2; exact ⟨h1, h2⟩
      refine ⟨⟨hc, hlen⟩, fun d hd => ?_⟩
      have := hall d hd
      simp only [isPhoneTailChar, Bool.or_eq_true, decide_eq_true_eq]
      tauto

/-- C2: phone validation succeeds exactly on strings whose trimmed form
matches the spec grammar; `add` rejects any phone outside the grammar with
`ValidationError`; and the inputs `""`, `"abc"`, `"+"`, `"1234"` are all
rejected while `"+------"` (no digits after the first character) is
accepted. -/
theorem C2_phone_validation :
    (∀ s : Str, (∃ r, validate_phone s = .ok r) ↔ specPhoneGrammar (pyStrip s)) ∧
    (∀ pb n p c, pyStrip n ≠ [] → ¬ specPhoneGrammar (pyStrip p) →
      (Phonebook.add pb n p c).1 = .error .validation) ∧
    validate_phone "".data = .error .validation ∧
    validate_phone "abc".data = .error .validation ∧
    validate_phone "+".data = .error .validation ∧
    validate_phone "1234".data = .error .validation ∧
    validate_phone "+------".data = .ok "+------".data := by
  refine ⟨?_, ?_, rfl, rfl, rfl, rfl, rfl⟩
  · intro s
    by_cases hm : phoneRegexMatch (pyStrip s) = true
    · simp only [validate_phone, hm, if_true]
      exact ⟨fun _ => (phoneRegexMatch_iff _).mp hm, fun _ => ⟨pyStrip s, rfl⟩⟩
    · simp only [validate_phone, hm, if_false]
      constructor
      · rintro ⟨r, hr⟩; cases hr
      · intro hg; exact absurd ((phoneRegexMatch_iff _).mpr hg) hm
  · intro pb n p c hn hp
    have hvn : validate_name n = .ok (pyStrip n) := by
      simp [validate_name, List.isEmpty_iff, hn]
    have hm : phoneRegexMatch (pyStrip p) ≠ true :=
      fun hm => hp ((phoneRegexMatch_iff _).mp hm)
    have hvp : validate_phone p = .error .validation := by
      simp [validate_phone, hm]
    simp [Phonebook.add, hvn, hvp]

/-- Witness for C2 at a concrete input. -/
theorem C2_phone_validation_witness :
    (Phonebook.init.add "Ann".data "abc".data []).1 = .error .validation :=
  C2_phone_validation.2.1 Phonebook.init "Ann".data "abc".data [] (by decide)
    (fun hg => absurd ((phoneRegexMatch_iff _).mpr hg) (by decide))

/-! ### C6: load behaviour -/

theorem pySplitTab_ne_nil : ∀ s : Str, pySplitTab s ≠ [] := by
  intro s
  cases s with
  | nil => simp [pySplitTab]
  | cons c rest =>
    simp only [pySplitTab]
    split
    · simp
    · split <;> simp

theorem padTo4_getD_zero (ps : List Str) (h : ps ≠ []) :
    (padTo4 ps).getD 0 [] = ps.getD 0 [] := by
  cases ps with
  | nil => exact absurd rfl h
  | cons a ps' =>
    simp only [padTo4]
    split
    · rfl
    · rfl

theorem parseLine_error_val (line : Str) (e : StorageErr)
    (h : parseLine line = .error e) : e = .parseError := by
  unfold parseLine at h
  split at h
  · cases h
  · injection h with h'
    exact h'.symm

theorem parseLine_fails (line : Str)
    (hbad : pyInt ((pySplitTab line).getD 0 []) = none) :
    parseLine line = .error .parseError := by
  unfold parseLine
  rw [padTo4_getD_zero _ (pySplitTab_ne_nil line), hbad]

theorem loadLines_blank (l : Str) (ls : List Str) (h : pyStrip l = []) :
    loadLines (l :: ls) = loadLines ls := by
  simp [loadLines, h]

theorem loadLines_fail (ls : List Str) (l : Str) (hmem : l ∈ ls)
    (hnb : pyStrip l ≠ []) (hbad : pyInt ((pySplitTab l).getD 0 []) = none) :
    loadLines ls = .error .parseError := by
  induction ls with
  | nil => cases hmem
  | cons a rest ih =>
    by_cases hblank : (pyStrip a).isEmpty = true
    · have hlr : l ∈ rest := by
        rcases List.mem_cons.mp hmem with h1 | h1
        · subst h1
          exact absurd (List.isEmpty_iff.mp hblank) hnb
        · exact h1
      simp only [loadLines, hblank, if_true]
      exact ih hlr
    · cases hpl : parseLine a with
      | error e =>
        have he := parseLine_error_val a e hpl
        subst he
        simp [loadLines, hblank, hpl]
      | ok c =>
        have hlr : l ∈ rest := by
          rcases List.mem_cons.mp hmem with h1 | h1
          · rw [← h1] at hpl
            rw [parseLine_fails l hbad] at hpl
            cases hpl
          · exact h1
        simp only [loadLines, if_neg hblank, hpl, ih hlr]
        rfl

/-- C6: `load` of a missing path is the empty list; of a non-regular-file
path a `StorageError`; blank lines are skipped; a non-blank line with 1, 2
or 3 tab-separated fields is padded with empty strings; and a line whose
first field does not parse as an integer fails the whole load with
`StorageError`. -/
theorem C6_load_behaviour :
    TxtStorage.load .missing = .ok [] ∧
    TxtStorage.load .notAFile = .error .notAFile ∧
    (∀ l ls, pyStrip l = [] → loadLines (l :: ls) = loadLines ls) ∧
    (∀ line f1, pySplitTab line = [f1] →
      parseLine line = match pyInt f1 with
        | some i => .ok ⟨i, [], [], []⟩
        | none => .error .parseError) ∧
    (∀ line f1 f2, pySplitTab line = [f1, f2] →
      parseLine line = match pyInt f1 with
        | some i => .ok ⟨i, pyStrip f2, [], []⟩
        | none => .error .parseError) ∧
    (∀ line f1 f2 f3, pySplitTab line = [f1, f2, f3] →
      parseLine line = match pyInt f1 with
        | some i => .ok ⟨i, pyStrip f2, pyStrip f3, []⟩
        | none => .error .parseError) ∧
    (∀ ls l, l ∈ ls → pyStrip l ≠ [] → pyInt ((pySplitTab l).getD 0 []) = none →
      loadLines ls = .error .parseError) := by
  refine ⟨rfl, rfl, loadLines_blank, ?_, ?_, ?_, fun ls l => loadLines_fail ls l⟩
  · intro line f1 h
    unfold parseLine
    rw [h]
    cases hint : pyInt ((padTo4 [f1]).getD 0 []) with
    | none =>
      have : pyInt f1 = none := by simpa [padTo4] using hint
      simp [this]
    | some i =>
      have : pyInt f1 = some i := by simpa [padTo4] using hint
      simp [this, padTo4, pyStrip, List.rdropWhile]
  · intro line f1 f2 h
    unfold parseLine
    rw [h]
    cases hint : pyInt ((padTo4 [f1, f2]).getD 0 []) with
    | none =>
      have : pyInt f1 = none := by simpa [padTo4] using hint
      simp [this]
    | some i =>
      have : pyInt f1 = some i := by simpa [padTo4] using hint
      simp [this, padTo4, pyStrip, List.rdropWhile]
  · intro line f1 f2 f3 h
    unfold parseLine
    rw [h]
    cases hint : pyInt ((padTo4 [f1, f2, f3]).getD 0 []) with
    | none =>
      have : pyInt f1 = none := by simpa [padTo4] using hint
      simp [this]
    | some i =>
      have : pyInt f1 = some i := by simpa [padTo4] using hint
      simp [this, padTo4, pyStrip, List.rdropWhile]

/-- Witness for C6 at concrete inputs. -/
theorem C6_load_behaviour_witness :
    loadLines (" ".data :: ["1\tA".data]) = loadLines ["1\tA".data] ∧
    parseLine "5".data = .ok ⟨5, [], [], []⟩ ∧
    parseLine "5\tA".data = .ok ⟨5, "A".data, [], []⟩ ∧
    parseLine "5\tA\tB".data = .ok ⟨5, "A".data, "B".data, []⟩ ∧
    loadLines ["1\tA".data, "x\tB".data] = .error .parseError := by
  refine ⟨?_, ?_, ?_, ?_, ?_⟩
  · exact C6_load_behaviour.2.2.1 " ".data ["1\tA".data] (by decide)
  · exact (C6_load_behaviour.2.2.2.1 "5".data "5".data (by decide)).trans rfl
  · exact (C6_load_behaviour.2.2.2.2.1 "5\tA".data "5".data "A".data (by decide)).trans rfl
  · exact (C6_load_behaviour.2.2.2.2.2.1 "5\tA\tB".data "5".data "A".data "B".data
      (by decide)).trans rfl
  · exact C6_load_behaviour.2.2.2.2.2.2 ["1\tA".data, "x\tB".data] "x\tB".data
      (by decide) (by decide) (by decide)

/-! ### C10: load strips field whitespace -/

theorem pyStrip_dropWhile_self (s : Str) :
    List.dropWhile pyIsSpace (pyStrip s) = pyStrip s := by
  unfold pyStrip
  rcases ht : List.rdropWhile pyIsSpace (List.dropWhile pyIsSpace s) with - | ⟨c, t'⟩
  · simp
  · obtain ⟨r, hr⟩ := (List.rdropWhile_prefix pyIsSpace (List.dropWhile pyIsSpace s))
    rw [ht] at hr
    have hu : List.dropWhile pyIsSpace s = c :: (t' ++ r) := by
      rw [← hr]; rfl
    have hid : List.dropWhile pyIsSpace (List.dropWhile pyIsSpace s) =
        List.dropWhile pyIsSpace s := List.dropWhile_idempotent _ _
    rw [hu] at hid
    by_cases hp : pyIsSpace c = true
    · rw [List.dropWhile_cons_of_pos hp] at hid
      have hlen := congrArg List.length hid
      have hle := (List.dropWhile_suffix pyIsSpace (l := t' ++ r)).sublist.length_le
      simp only [List.length_cons] at hlen
      omega
    · exact List.dropWhile_cons_of_neg hp

theorem pyStrip_idem (s : Str) : pyStrip (pyStrip s) = pyStrip s := by
  conv_lhs => rw [pyStrip, pyStrip_dropWhile_self]
  rw [pyStrip, List.rdropWhile_idempotent]

theorem pyInt_congr {a b : Str} (h : pyStrip a = pyStrip b) : pyInt a = pyInt b := by
  unfold pyInt
  rw [h]

theorem parseLine_ok_parts (line : Str) (c : Contact) (h : parseLine line = .ok c) :
    c.name = pyStrip ((padTo4 (pySplitTab line)).getD 1 []) ∧
      c.phone = pyStrip ((padTo4 (pySplitTab line)).getD 2 []) ∧
      c.comment = pyStrip ((padTo4 (pySplitTab line)).getD 3 []) := by
  unfold parseLine at h
  split at h
  · injection h with h'
    subst h'
    exact ⟨rfl, rfl, rfl⟩
  · cases h

theorem loadLines_ok_fields (ls : List Str) (cs : List Contact)
    (h : loadLines ls = .ok cs) :
    ∀ c ∈ cs, pyStrip c.name = c.name ∧ pyStrip c.phone = c.phone ∧
      pyStrip c.comment = c.comment := by
  induction ls generalizing cs with
  | nil =>
    simp only [loadLines] at h
    injection h with h'
    subst h'
    intro c hc
    cases hc
  | cons a rest ih =>
    by_cases hblank : (pyStrip a).isEmpty = true
    · simp only [loadLines, hblank, if_true] at h
      exact ih cs h
    · cases hpl : parseLine a with
      | error e => simp [loadLines, hblank, hpl] at h
      | ok c0 =>
        simp only [loadLines, if_neg hblank, hpl] at h
        cases hr : loadLines rest with
        | error e => rw [hr] at h; cases h
        | ok cs' =>
          rw [hr] at h
          injection h with h'
          subst h'
          intro c hc
          rcases List.mem_cons.mp hc with rfl | hc'
          · obtain ⟨h1, h2, h3⟩ := parseLine_ok_parts a c hpl
            rw [h1, h2, h3]
            exact ⟨pyStrip_idem _, pyStrip_idem _, pyStrip_idem _⟩
          · exact ih cs' hr c hc'

/-- C10: every contact returned by `load` has strip-fixed name, phone and
comment (no surrounding whitespace), and two lines whose padded fields agree
up to surrounding whitespace parse to the same result. -/
theorem C10_load_strips_fields :
    (∀ st cs, TxtStorage.load st = .ok cs →
      ∀ c ∈ cs, pyStrip c.name = c.name ∧ pyStrip c.phone = c.phone ∧
        pyStrip c.comment = c.comment) ∧
    (∀ l1 l2 : Str,
      (∀ i < 4, pyStrip ((padTo4 (pySplitTab l1)).getD i []) =
        pyStrip ((padTo4 (pySplitTab l2)).getD i [])) →
      parseLine l1 = parseLine l2) := by
  constructor
  · intro st cs h
    cases st with
    | missing =>
      simp only [TxtStorage.load] at h
      injection h with h'
      subst h'
      intro c hc
      cases hc
    | notAFile => cases h
    | file t => exact loadLines_ok_fields _ _ h
  · intro l1 l2 h
    have h0 := h 0 (by omega)
    have h1 := h 1 (by omega)
    have h2 := h 2 (by omega)
    have h3 := h 3 (by omega)
    unfold parseLine
    rw [pyInt_congr h0, h1, h2, h3]

/-- Witness for C10 at concrete inputs. -/
theorem C10_load_strips_fields_witness :
    (pyStrip "a".data = "a".data) ∧
    (∀ i < 4, pyStrip ((padTo4 (pySplitTab "1\t A".data)).getD i []) =
      pyStrip ((padTo4 (pySplitTab " 1 \tA\t".data)).getD i [])) ∧
    parseLine "1\t A".data = parseLine " 1 \tA\t".data :=
  ⟨(C10_load_strips_fields.1 (.file "1\ta".data) [⟨1, "a".data, [], []⟩] rfl
      ⟨1, "a".data, [], []⟩ (by simp)).1,
    by decide,
    C10_load_strips_fields.2 "1\t A".data " 1 \tA\t".data (by decide)⟩

/-! ### C9: the two search variants agree up to ordering -/

theorem strLtB_conn : ∀ a b : Str, strLtB a b = false → strLtB b a = false → a = b
  | [], [], _, _ => rfl
  | [], _ :: _, h1, _ => by simp [strLtB] at h1
  | _ :: _, [], _, h2 => by simp [strLtB] at h2
  | a :: as, b :: bs, h1, h2 => by
    simp only [strLtB] at h1 h2
    by_cases hab : a < b
    · simp [hab] at h1
    · by_cases hba : b < a
      · simp [hba, hab] at h2
      · have hcc : a = b := le_antisymm (not_lt.mp hba) (not_lt.mp hab)
        subst hcc
        rw [if_neg hab, if_neg hab] at h1 h2
        rw [strLtB_conn as bs h1 h2]

theorem strLtB_cons_iff (a b : Char) (as bs : Str) :
    strLtB (a :: as) (b :: bs) = true ↔ a < b ∨ (a = b ∧ strLtB as bs = true) := by
  simp only [strLtB]
  by_cases hab : a < b
  · simp [hab]
  · by_cases hba : b < a
    · have : a ≠ b := fun h => absurd (h ▸ hba) (lt_irrefl a)
      simp [hab, hba, this]
    · have : a = b := le_antisymm (not_lt.mp hba) (not_lt.mp hab)
      simp [hab, hba, this]

theorem strLtB_trans : ∀ a b c : Str, strLtB a b = true → strLtB b c = true →
    strLtB a c = true
  | [], b, c, h1, h2 => by
    cases b with
    | nil => simp [strLtB] at h1
    | cons x xs =>
      cases c with
      | nil => simp [strLtB] at h2
      | cons y ys => simp [strLtB]
  | _ :: _, [], _, h1, _ => by simp [strLtB] at h1
  | _ :: _, x :: xs, [], _, h2 => by simp [strLtB] at h2
  | a :: as, b :: bs, c :: cs, h1, h2 => by
    rw [strLtB_cons_iff] at h1 h2 ⊢
    rcases h1 with h1 | ⟨rfl, h1⟩
    · rcases h2 with h2 | ⟨rfl, h2⟩
      · exact Or.inl (lt_trans h1 h2)
      · exact Or.inl h1
    · rcases h2 with h2 | ⟨rfl, h2⟩
      · exact Or.inl h2
      · exact Or.inr ⟨rfl, strLtB_trans as bs cs h1 h2⟩

instance : IsTotal Contact contactLE :=
  ⟨fun a b => by
    unfold contactLE
    by_cases h1 : strLtB (pyLower a.name) (pyLower b.name) = true
    · exact Or.inl (Or.inl h1)
    · by_cases h2 : strLtB (pyLower b.name) (pyLower a.name) = true
      · exact Or.inr (Or.inl h2)
      · have heq : pyLower a.name = pyLower b.name :=
          strLtB_conn _ _ (Bool.not_eq_true _ ▸ h1 : _) (Bool.not_eq_true _ ▸ h2 : _)
        rcases le_total a.id b.id with h | h
        · exact Or.inl (Or.inr ⟨heq, h⟩)
        · exact Or.inr (Or.inr ⟨heq.symm, h⟩)⟩

instance : IsTrans Contact contactLE :=
  ⟨fun a b c hab hbc => by
    unfold contactLE at *
    rcases hab with h1 | ⟨e1, h1⟩
    · rcases hbc with h2 | ⟨e2, h2⟩
      · exact Or.inl (strLtB_trans _ _ _ h1 h2)
      · exact Or.inl (e2 ▸ h1)
    · rcases hbc with h2 | ⟨e2, h2⟩
      · exact Or.inl (e1 ▸ h2)
      · exact Or.inr ⟨e1.trans e2, le_trans h1 h2⟩⟩

/-- C9: on the same contact collection, the repository free-text `search`
returns exactly the contacts of the model `search` (a permutation), and its
result is sorted by the key `(name.lower(), id)`; the model variant is the
unsorted map-iteration-order filter by definition. -/
theorem C9_search_agreement :
    ∀ (pb : Phonebook) (q : Str),
      (repoSearch pb.contacts q).Perm (pb.search q) ∧
        List.Sorted contactLE (repoSearch pb.contacts q) := by
  intro pb q
  unfold repoSearch Phonebook.search pySorted
  by_cases hq : (pyLower (pyStrip q)).isEmpty = true
  · simp only [hq, if_true]
    exact ⟨List.Perm.refl _, List.sorted_nil⟩
  · simp only [hq, if_false]
    exact ⟨List.perm_insertionSort _ _, List.sorted_insertionSort _ _⟩

/-! ### C1 and C8: reachable-state invariants -/

theorem mem_dictSet {m : List Contact} {c x : Contact} (h : x ∈ dictSet m c) :
    x ∈ m ∨ x = c := by
  unfold dictSet at h
  split at h
  · rcases List.mem_map.mp h with ⟨y, hy, hxy⟩
    by_cases hid : y.id = c.id
    · rw [if_pos hid] at hxy
      exact Or.inr hxy.symm
    · rw [if_neg hid] at hxy
      exact Or.inl (hxy ▸ hy)
  · rcases List.mem_append.mp h with h1 | h1
    · exact Or.inl h1
    · simp only [List.mem_singleton] at h1
      exact Or.inr h1

theorem mem_foldl_dictSet : ∀ (cs acc : List Contact) (x : Contact),
    x ∈ cs.foldl dictSet acc → x ∈ acc ∨ x ∈ cs
  | [], _, _, h => Or.inl h
  | c :: cs', acc, x, h => by
    rcases mem_foldl_dictSet cs' (dictSet acc c) x h with h1 | h1
    · rcases mem_dictSet h1 with h2 | h2
      · exact Or.inl h2
      · exact Or.inr (by simp [h2])
    · exact Or.inr (List.mem_cons_of_mem _ h1)

theorem mem_dictOfList {cs : List Contact} {x : Contact} (h : x ∈ dictOfList cs) :
    x ∈ cs := by
  rcases mem_foldl_dictSet cs [] x h with h1 | h1
  · cases h1
  · exact h1

theorem dictSet_append {m : List Contact} {c : Contact}
    (h : ∀ x ∈ m, x.id ≠ c.id) : dictSet m c = m ++ [c] := by
  unfold dictSet
  rw [if_neg]
  simp only [List.any_eq_true, decide_eq_true_eq, not_exists, not_and]
  exact h

theorem foldl_max_le_init : ∀ (xs : List Int) (a : Int), a ≤ xs.foldl max a
  | [], a => le_refl a
  | x :: xs, a => le_trans (le_max_left a x) (foldl_max_le_init xs (max a x))

theorem foldl_max_le_mem : ∀ (xs : List Int) (a x : Int), x ∈ xs → x ≤ xs.foldl max a
  | [], _, _, h => absurd h (List.not_mem_nil _)
  | y :: ys, a, x, h => by
    rcases List.mem_cons.mp h with rfl | h1
    · exact le_trans (le_max_right a x) (foldl_max_le_init ys (max a x))
    · exact foldl_max_le_mem ys (max a y) x h1

theorem le_maxOr0 (xs : List Int) (x : Int) (h : x ∈ xs) : x ≤ maxOr0 xs := by
  cases xs with
  | nil => cases h
  | cons y ys =>
    unfold maxOr0
    rcases List.mem_cons.mp h with rfl | h1
    · exact foldl_max_le_init ys x
    · exact foldl_max_le_mem ys y x h1

theorem get_ok_mem {pb : Phonebook} {cid : Int} {ex : Contact}
    (h : pb.get cid = .ok ex) : ex ∈ pb.contacts := by
  unfold Phonebook.get at h
  cases hf : dictGet pb.contacts cid with
  | none => rw [hf] at h; cases h
  | some c =>
    rw [hf] at h
    injection h with h'
    subst h'
    exact List.mem_of_find?_eq_some hf

/-- The next-id invariant: the counter strictly dominates every stored id. -/
def nextIdInv (pb : Phonebook) : Prop := ∀ c ∈ pb.contacts, c.id < pb.next_id

theorem nextIdInv_step {pb pb' : Phonebook} (hinv : nextIdInv pb)
    (hs : Step pb pb') : nextIdInv pb' := by
  cases hs with
  | add n p c =>
    cases hr : (pb.add n p c).1 with
    | error e => rw [add_error_snd _ _ _ _ _ hr]; exact hinv
    | ok r =>
      have hps : pb.add n p c = ((pb.add n p c).1, (pb.add n p c).2) := Prod.mk.eta.symm
      rw [hr] at hps
      obtain ⟨hr1, hr2, -, -⟩ := add_ok_parts _ _ _ _ _ _ hps
      rw [hr2]
      intro x hx
      rcases mem_dictSet hx with h1 | h1
      · have := hinv x h1
        simp only []
        omega
      · rw [h1, hr1]
        simp only []
        omega
  | update cid n p c =>
    cases hr : (pb.update cid n p c).1 with
    | error e => rw [update_error_snd _ _ _ _ _ _ hr]; exact hinv
    | ok r =>
      have hps : pb.update cid n p c = ((pb.update cid n p c).1, (pb.update cid n p c).2) :=
        Prod.mk.eta.symm
      rw [hr] at hps
      obtain ⟨ex, hget, hid, hpb2, -⟩ := update_ok_parts _ _ _ _ _ _ _ hps
      rw [hpb2]
      intro x hx
      rcases mem_dictSet hx with h1 | h1
      · exact hinv x h1
      · rw [h1]
        have := hinv ex (get_ok_mem hget)
        simp only [hid]
        exact this
  | delete cid =>
    cases hr : (pb.delete cid).1 with
    | error e => rw [delete_error_snd _ _ _ hr]; exact hinv
    | ok u =>
      have hps : pb.delete cid = ((pb.delete cid).1, (pb.delete cid).2) := Prod.mk.eta.symm
      rw [hr] at hps
      obtain ⟨-, hnid, hsub⟩ := delete_ok_parts _ _ _ _ hps
      intro x hx
      rw [hnid]
      exact hinv x (hsub x hx)
  | replace_all cs =>
    intro x hx
    simp only [Phonebook.replace_all] at hx ⊢
    have hmem : x.id ∈ (dictOfList cs).map (·.id) := List.mem_map_of_mem _ hx
    have := le_maxOr0 _ _ hmem
    omega
  | mark_clean => exact hinv

theorem reachable_nextIdInv : ∀ pb, Reachable pb → nextIdInv pb := by
  intro pb h
  induction h with
  | init => intro c hc; cases hc
  | step hr hs ih => exact nextIdInv_step ih hs

/-- Successive successful adds: appended contacts receive the consecutive
counter values. -/
def addAll (pb : Phonebook) (prs : List (Str × Str)) : Phonebook :=
  prs.foldl (fun st pr => (st.add pr.1 pr.2 []).2) pb

/-- The `n` consecutive integers starting at `k`. -/
def idsFrom (k : Int) (n : Nat) : List Int :=
  List.map (fun j : Nat => k + (j : Int)) (List.range n)

theorem idsFrom_succ (k : Int) (n : Nat) : idsFrom k (n + 1) = k :: idsFrom (k + 1) n := by
  unfold idsFrom
  rw [List.range_succ_eq_map, List.map_cons, List.map_map]
  simp only [Nat.cast_zero, add_zero]
  congr 1
  apply List.map_congr_left
  intro j hj
  simp only [Function.comp_apply]
  push_cast
  omega

theorem addAll_spec : ∀ (prs : List (Str × Str)) (pb : Phonebook),
    (∀ pr ∈ prs, pyStrip pr.1 ≠ [] ∧ phoneRegexMatch (pyStrip pr.2) = true) →
    nextIdInv pb →
    (addAll pb prs).contacts.map (·.id) =
        pb.contacts.map (·.id) ++ idsFrom pb.next_id prs.length ∧
      (addAll pb prs).next_id = pb.next_id + prs.length ∧
      (prs ≠ [] → (addAll pb prs).dirty = true)
  | [], pb, _, _ => by
    refine ⟨by simp [addAll, idsFrom], by simp [addAll], fun h => absurd rfl h⟩
  | (n, p) :: rest, pb, hv, hinv => by
    obtain ⟨hn, hp⟩ := hv (n, p) (List.mem_cons_self _ _)
    have hvn : validate_name n = .ok (pyStrip n) := by
      simp [validate_name, List.isEmpty_iff, hn]
    have hvp : validate_phone p = .ok (pyStrip p) := by
      simp [validate_phone, hp]
    have hadd : pb.add n p [] =
        (.ok ⟨pb.next_id, pyStrip n, pyStrip p, pyStrip []⟩,
          ⟨dictSet pb.contacts ⟨pb.next_id, pyStrip n, pyStrip p, pyStrip []⟩,
            pb.next_id + 1, true⟩) := by
      simp [Phonebook.add, hvn, hvp]
    have hfresh : ∀ x ∈ pb.contacts,
        x.id ≠ (⟨pb.next_id, pyStrip n, pyStrip p, pyStrip []⟩ : Contact).id := by
      intro x hx
      have := hinv x hx
      simp only []
      omega
    have hset := dictSet_append hfresh
    set c0 : Contact := ⟨pb.next_id, pyStrip n, pyStrip p, pyStrip []⟩ with hc0
    set pb1 : Phonebook := ⟨dictSet pb.contacts c0, pb.next_id + 1, true⟩ with hpb1
    have hstep : addAll pb ((n, p) :: rest) = addAll pb1 rest := by
      unfold addAll
      simp only [List.foldl_cons, hadd]
    have hinv1 : nextIdInv pb1 := by
      intro x hx
      simp only [hpb1, hset] at hx ⊢
      rcases List.mem_append.mp hx with h1 | h1
      · have := hinv x h1
        omega
      · simp only [List.mem_singleton] at h1
        rw [h1, hc0]
        simp only []
        omega
    obtain ⟨ih1, ih2, ih3⟩ := addAll_spec rest pb1
      (fun pr hpr => hv pr (List.mem_cons_of_mem _ hpr)) hinv1
    refine ⟨?_, ?_, ?_⟩
    · rw [hstep, ih1]
      simp only [hpb1, hset, List.map_append, List.length_cons]
      rw [idsFrom_succ]
      simp [hc0]
    · rw [hstep, ih2]
      simp only [hpb1, List.length_cons]
      omega
    · intro _
      rw [hstep]
      cases rest with
      | nil => simp [addAll, hpb1]
      | cons q qs => exact ih3 (by simp)

/-- C1 states that the counter "equals 1 when the directory is empty" in
every reachable state; it does not: adding a contact and deleting it again
reaches an empty directory whose counter is 2. -/
theorem C1_counterexample :
    Reachable ((Phonebook.init.add "A".data "123456".data []).2.delete 1).2 ∧
    ((Phonebook.init.add "A".data "123456".data []).2.delete 1).2.contacts = [] ∧
    ((Phonebook.init.add "A".data "123456".data []).2.delete 1).2.next_id = 2 := by
  refine ⟨?_, by decide, by decide⟩
  exact Reachable.step (Reachable.step Reachable.init
    (Step.add Phonebook.init "A".data "123456".data []))
    (Step.delete (Phonebook.init.add "A".data "123456".data []).2 1)

/-- C1 (amended): in every reachable state the next-id counter strictly
dominates every stored id; it starts at 1 on the fresh directory; and every
sequence of successful adds on a fresh directory assigns the ids 1, 2, 3, …
in order and leaves the directory dirty.  (The claim's parenthetical
"equals 1 whenever the directory is empty" fails after add-then-delete,
which empties the directory but leaves the counter at 2.) -/
theorem C1_next_id_invariant :
    (∀ pb, Reachable pb → ∀ c ∈ pb.contacts, c.id < pb.next_id) ∧
    Phonebook.init.next_id = 1 ∧
    (∀ prs : List (Str × Str),
      (∀ pr ∈ prs, pyStrip pr.1 ≠ [] ∧ phoneRegexMatch (pyStrip pr.2) = true) →
      (addAll Phonebook.init prs).contacts.map (·.id) = idsFrom 1 prs.length ∧
        (prs ≠ [] → (addAll Phonebook.init prs).dirty = true)) := by
  refine ⟨reachable_nextIdInv, rfl, ?_⟩
  intro prs hv
  obtain ⟨h1, -, h3⟩ := addAll_spec prs Phonebook.init hv (fun c hc => by cases hc)
  exact ⟨by simpa [Phonebook.init] using h1, h3⟩

/-- Witness for C1 at concrete inputs. -/
theorem C1_next_id_invariant_witness :
    (∀ c ∈ (Phonebook.init.add "A".data "123456".data []).2.contacts,
      c.id < (Phonebook.init.add "A".data "123456".data []).2.next_id) ∧
    (addAll Phonebook.init [("A".data, "123456".data), ("B".data, "777777".data)]
        |>.contacts.map (·.id)) = idsFrom 1 2 ∧
    (addAll Phonebook.init [("A".data, "123456".data), ("B".data, "777777".data)]).dirty
      = true := by
  refine ⟨?_, ?_, ?_⟩
  · exact C1_next_id_invariant.1 _ (Reachable.step Reachable.init
      (Step.add Phonebook.init "A".data "123456".data []))
  · exact (C1_next_id_invariant.2.2 [("A".data, "123456".data), ("B".data, "777777".data)]
      (by decide)).1
  · exact (C1_next_id_invariant.2.2 [("A".data, "123456".data), ("B".data, "777777".data)]
      (by decide)).2 (by simp)

/-- The name invariant of C8. -/
def namesOk (pb : Phonebook) : Prop := ∀ c ∈ pb.contacts, pyStrip c.name ≠ []

theorem namesOk_stepV {pb pb' : Phonebook} (hinv : namesOk pb)
    (hs : StepV pb pb') : namesOk pb' := by
  cases hs with
  | add n p c =>
    cases hr : (pb.add n p c).1 with
    | error e => rw [add_error_snd _ _ _ _ _ hr]; exact hinv
    | ok r =>
      have hps : pb.add n p c = ((pb.add n p c).1, (pb.add n p c).2) := Prod.mk.eta.symm
      rw [hr] at hps
      obtain ⟨hr1, hr2, hne, -⟩ := add_ok_parts _ _ _ _ _ _ hps
      rw [hr2]
      intro x hx
      rcases mem_dictSet hx with h1 | h1
      · exact hinv x h1
      · rw [h1, hr1]
        simpa [pyStrip_idem] using hne
  | update cid n p c =>
    cases hr : (pb.update cid n p c).1 with
    | error e => rw [update_error_snd _ _ _ _ _ _ hr]; exact hinv
    | ok r =>
      have hps : pb.update cid n p c = ((pb.update cid n p c).1, (pb.update cid n p c).2) :=
        Prod.mk.eta.symm
      rw [hr] at hps
      obtain ⟨ex, hget, -, hpb2, hname⟩ := update_ok_parts _ _ _ _ _ _ _ hps
      rw [hpb2]
      intro x hx
      rcases mem_dictSet hx with h1 | h1
      · exact hinv x h1
      · rw [h1]
        cases n with
        | none =>
          simp only [optField] at hname
          injection hname with h'
          rw [← h']
          exact hinv ex (get_ok_mem hget)
        | some v =>
          simp only [optField] at hname
          obtain ⟨hrn, hvne⟩ := validate_name_ok hname
          rw [hrn]
          simpa [pyStrip_idem] using hvne
  | delete cid =>
    cases hr : (pb.delete cid).1 with
    | error e => rw [delete_error_snd _ _ _ hr]; exact hinv
    | ok u =>
      have hps : pb.delete cid = ((pb.delete cid).1, (pb.delete cid).2) := Prod.mk.eta.symm
      rw [hr] at hps
      obtain ⟨-, -, hsub⟩ := delete_ok_parts _ _ _ _ hps
      intro x hx
      exact hinv x (hsub x hx)
  | replace_all cs h =>
    intro x hx
    simp only [Phonebook.replace_all] at hx
    exact h x (mem_dictOfList hx)
  | mark_clean => exact hinv

theorem reachableV_namesOk : ∀ pb, ReachableV pb → namesOk pb := by
  intro pb h
  induction h with
  | init => intro c hc; cases hc
  | step hr hs ih => exact namesOk_stepV ih hs

/-- C8 asserts the name invariant survives `replace_all` applied to any load
result; it does not: loading a file whose single line is `"5"` (fewer than 2
tab-separated fields) yields a contact with an empty name, and `replace_all`
stores it without re-validation. -/
theorem C8_counterexample :
    TxtStorage.load (.file "5\n".data) = .ok [⟨5, [], [], []⟩] ∧
    Reachable (Phonebook.init.replace_all [⟨5, [], [], []⟩]) ∧
    (Phonebook.init.replace_all [⟨5, [], [], []⟩]).contacts = [⟨5, [], [], []⟩] ∧
    pyStrip (Contact.name ⟨5, [], [], []⟩) = [] := by
  exact ⟨rfl,
    Reachable.step Reachable.init (Step.replace_all Phonebook.init [⟨5, [], [], []⟩]),
    by decide, rfl⟩

/-- C8 (amended): in every state reachable when `replace_all` is only fed
contacts with non-blank names (the spec's pre-validated-input assumption),
every stored contact's name is non-empty and not whitespace-only; but a
`load` of a line with fewer than 2 tab-separated fields returns a contact
with an empty name, and `replace_all` applied to that load result violates
the invariant (see the counterexample). -/
theorem C8_name_invariant :
    ∀ pb, ReachableV pb → ∀ c ∈ pb.contacts, pyStrip c.name ≠ [] :=
  reachableV_namesOk

/-- Witness for C8 at a concrete input. -/
theorem C8_name_invariant_witness :
    pyStrip (Contact.name ⟨1, "A".data, "123456".data, []⟩) ≠ [] :=
  C8_name_invariant (Phonebook.init.add "A".data "123456".data []).2
    (ReachableV.step ReachableV.init (StepV.add Phonebook.init "A".data "123456".data []))
    ⟨1, "A".data, "123456".data, []⟩ (by decide)

/-! ### C3: save/load round trip -/

theorem digitChar_isDigit {d : Nat} (h : d < 10) : (Nat.digitChar d).isDigit = true := by
  interval_cases d <;> decide

theorem digitChar_toNat {d : Nat} (h : d < 10) : (Nat.digitChar d).toNat = 48 + d := by
  interval_cases d <;> decide

theorem digitsVal_append (a : Str) (c : Char) :
    digitsVal (a ++ [c]) = digitsVal a * 10 + (c.toNat - 48) := by
  unfold digitsVal
  rw [List.foldl_append]
  rfl

theorem natToStrAux_spec : ∀ (f n : Nat), n < f →
    natToStrAux f n ≠ [] ∧ (∀ c ∈ natToStrAux f n, c.isDigit = true) ∧
      digitsVal (natToStrAux f n) = n
  | 0, n, h => absurd h (Nat.not_lt_zero n)
  | f + 1, n, _ => by
    by_cases h10 : n < 10
    · simp only [natToStrAux, if_pos h10]
      refine ⟨by simp, ?_, ?_⟩
      · intro c hc
        simp only [List.mem_singleton] at hc
        subst hc
        exact digitChar_isDigit h10
      · unfold digitsVal
        simp only [List.foldl_cons, List.foldl_nil, digitChar_toNat h10]
        omega
    · simp only [natToStrAux, if_neg h10]
      have hlt2 : n / 10 < f := by
        have := Nat.div_lt_self (show 0 < n by omega) (show 1 < 10 by omega)
        omega
      obtain ⟨hne, hall, hval⟩ := natToStrAux_spec f (n / 10) hlt2
      have hmod : n % 10 < 10 := Nat.mod_lt _ (by omega)
      refine ⟨by simp, ?_, ?_⟩
      · intro c hc
        rcases List.mem_append.mp hc with h1 | h1
        · exact hall c h1
        · simp only [List.mem_singleton] at h1
          subst h1
          exact digitChar_isDigit hmod
      · rw [digitsVal_append, hval, digitChar_toNat hmod]
        omega

theorem uDigitsTail_all_digits : ∀ s : Str, (∀ c ∈ s, c.isDigit = true) →
    uDigitsTail s = true
  | [], _ => rfl
  | c :: rest, h => by
    have hc : c.isDigit = true := h c (List.mem_cons_self _ _)
    have hne : ¬ c = '_' := fun he => absurd (he ▸ hc) (by decide)
    unfold uDigitsTail
    rw [if_neg hne, hc,
      uDigitsTail_all_digits rest (fun d hd => h d (List.mem_cons_of_mem _ hd))]
    rfl

theorem uDigitsOk_all_digits (s : Str) (hne : s ≠ []) (h : ∀ c ∈ s, c.isDigit = true) :
    uDigitsOk s = true := by
  cases s with
  | nil => exact absurd rfl hne
  | cons c rest =>
    unfold uDigitsOk
    show (c.isDigit && uDigitsTail rest) = true
    rw [h c (List.mem_cons_self _ _),
      uDigitsTail_all_digits rest (fun d hd => h d (List.mem_cons_of_mem _ hd))]
    rfl

theorem filter_no_underscore (s : Str) (h : ∀ c ∈ s, c.isDigit = true) :
    s.filter (fun c => c ≠ '_') = s := by
  apply List.filter_eq_self.mpr
  intro a ha
  have hd := h a ha
  simp only [ne_eq, decide_eq_true_eq]
  intro he
  exact absurd (he ▸ hd) (by decide)

theorem parseUDigits_natToStr (n : Nat) : parseUDigits (natToStr n) = some n := by
  obtain ⟨hne, hall, hval⟩ := natToStrAux_spec (n + 1) n (Nat.lt_succ_self n)
  unfold natToStr parseUDigits
  rw [if_pos (uDigitsOk_all_digits _ hne hall)]
  rw [filter_no_underscore _ hall, hval]

theorem dropWhile_all_false {p : Char → Bool} : ∀ s : Str,
    (∀ c ∈ s, p c = false) → List.dropWhile p s = s
  | [], _ => rfl
  | c :: _, h =>
    List.dropWhile_cons_of_neg (by simp [h c (List.mem_cons_self _ _)])

theorem pyStrip_no_space (s : Str) (h : ∀ c ∈ s, pyIsSpace c = false) :
    pyStrip s = s := by
  unfold pyStrip
  rw [dropWhile_all_false s h]
  unfold List.rdropWhile
  rw [dropWhile_all_false s.reverse (fun c hc => h c (List.mem_reverse.mp hc)),
    List.reverse_reverse]

theorem isDigit_not_space {c : Char} (h : c.isDigit = true) : pyIsSpace c = false := by
  unfold pyIsSpace
  by_contra hc
  rw [Bool.not_eq_false] at hc
  simp only [Bool.or_eq_true, decide_eq_true_eq] at hc
  rcases hc with ((((rfl | rfl) | rfl) | rfl) | rfl) | rfl <;> exact absurd h (by decide)

theorem natToStr_chars (n : Nat) : ∀ c ∈ natToStr n, c.isDigit = true :=
  (natToStrAux_spec (n + 1) n (Nat.lt_succ_self n)).2.1

theorem natToStr_ne_nil (n : Nat) : natToStr n ≠ [] :=
  (natToStrAux_spec (n + 1) n (Nat.lt_succ_self n)).1

theorem pyInt_natToStr (n : Nat) : pyInt (natToStr n) = some (n : Int) := by
  have hall := natToStr_chars n
  have hne := natToStr_ne_nil n
  have hstrip : pyStrip (natToStr n) = natToStr n :=
    pyStrip_no_space _ (fun c hc => isDigit_not_space (hall c hc))
  unfold pyInt
  rw [hstrip]
  rcases hs : natToStr n with - | ⟨c, t⟩
  · exact absurd hs hne
  · have hcd : c.isDigit = true := hall c (by rw [hs]; exact List.mem_cons_self _ _)
    split
    · rename_i rest heq
      injection heq with h1 h2
      subst h1
      exact absurd hcd (by decide)
    · rename_i rest heq
      injection heq with h1 h2
      subst h1
      exact absurd hcd (by decide)
    · rw [← hs, parseUDigits_natToStr]
      rfl

theorem pyInt_intToStr (i : Int) : pyInt (intToStr i) = some i := by
  unfold intToStr
  by_cases hneg : i < 0
  · rw [if_pos hneg]
    have hall := natToStr_chars i.natAbs
    have hstrip : pyStrip ('-' :: natToStr i.natAbs) = '-' :: natToStr i.natAbs := by
      apply pyStrip_no_space
      intro c hc
      rcases List.mem_cons.mp hc with rfl | hc'
      · decide
      · exact isDigit_not_space (hall c hc')
    unfold pyInt
    rw [hstrip]
    split
    · rename_i rest heq
      injection heq with h1 h2
      exact absurd h1 (by decide)
    · rename_i rest heq
      injection heq with h1 h2
      rw [← h2, parseUDigits_natToStr]
      simp only [Option.map]
      congr 1
      rw [show Int.ofNat i.natAbs = (i.natAbs : Int) from rfl]
      omega
    · rename_i hno
      exact absurd rfl (hno (natToStr i.natAbs))
  · rw [if_neg hneg]
    rw [pyInt_natToStr]
    congr 1
    omega

/-- A field value that survives the text format unchanged: strip-fixed,
tab-free and line-break-free. -/
def cleanField (f : Str) : Prop :=
  pyStrip f = f ∧ ∀ ch ∈ f, ch ≠ '\t' ∧ isLineBreak ch = false

instance (f : Str) : Decidable (cleanField f) := by
  unfold cleanField; infer_instance

theorem isDigit_not_break {c : Char} (h : c.isDigit = true) : isLineBreak c = false := by
  unfold isLineBreak
  by_contra hc
  rw [Bool.not_eq_false] at hc
  simp only [Bool.or_eq_true, decide_eq_true_eq] at hc
  have hl : c = '\n' ∨ c = '\r' ∨ c = '\x0b' ∨ c = '\x0c' ∨ c = '\x1c' ∨
      c = '\x1d' ∨ c = '\x1e' ∨ c = '\x85' ∨ c = '\u2028' ∨ c = '\u2029' := by
    tauto
  rcases hl with rfl | rfl | rfl | rfl | rfl | rfl | rfl | rfl | rfl | rfl <;>
    exact absurd h (by decide)

theorem intToStr_ne_nil (i : Int) : intToStr i ≠ [] := by
  unfold intToStr
  split
  · simp
  · exact natToStr_ne_nil _

theorem intToStr_chars (i : Int) : ∀ c ∈ intToStr i, c.isDigit = true ∨ c = '-' := by
  intro c hc
  unfold intToStr at hc
  split at hc
  · rcases List.mem_cons.mp hc with rfl | h1
    · exact Or.inr rfl
    · exact Or.inl (natToStr_chars _ c h1)
  · exact Or.inl (natToStr_chars _ c hc)

theorem intToStr_no_tab (i : Int) : ∀ c ∈ intToStr i, c ≠ '\t' := by
  intro c hc
  rcases intToStr_chars i c hc with hd | rfl
  · exact fun he => absurd (he ▸ hd) (by decide)
  · decide

theorem intToStr_no_break (i : Int) : ∀ c ∈ intToStr i, isLineBreak c = false := by
  intro c hc
  rcases intToStr_chars i c hc with hd | rfl
  · exact isDigit_not_break hd
  · decide

theorem not_break_ne_nl {ch : Char} (h : isLineBreak ch = false) : ch ≠ '\n' :=
  fun he => absurd (he ▸ h) (by decide)

theorem replNl_id (s : Str) (h : ∀ c ∈ s, c ≠ '\n') : replNl s = s := by
  unfold replNl
  have heq : List.map (fun c => if c = '\n' then ' ' else c) s = List.map id s :=
    List.map_congr_left (fun a ha => if_neg (h a ha))
  rw [heq, List.map_id]

theorem pySplitTab_no_tab : ∀ s : Str, (∀ c ∈ s, c ≠ '\t') → pySplitTab s = [s]
  | [], _ => rfl
  | c :: rest, h => by
    have hc := h c (List.mem_cons_self _ _)
    conv_lhs => unfold pySplitTab
    rw [if_neg hc, pySplitTab_no_tab rest (fun d hd => h d (List.mem_cons_of_mem _ hd))]

theorem pySplitTab_append (a r : Str) (h : ∀ c ∈ a, c ≠ '\t') :
    pySplitTab (a ++ '\t' :: r) = a :: pySplitTab r := by
  induction a with
  | nil =>
    rw [List.nil_append]
    conv_lhs => unfold pySplitTab
    rw [if_pos rfl]
  | cons c a' ih =>
    have hc := h c (List.mem_cons_self _ _)
    rw [List.cons_append]
    conv_lhs => unfold pySplitTab
    rw [if_neg hc, ih (fun d hd => h d (List.mem_cons_of_mem _ hd))]

theorem splitLines_append : ∀ l r : Str, (∀ c ∈ l, isLineBreak c = false) →
    splitLines (l ++ '\n' :: r) = l :: splitLines r
  | [], r, _ => by
    rw [List.nil_append]
    conv_lhs => unfold splitLines
    rw [if_neg (by decide : ¬ ('\n' = '\r')), if_pos (by decide : isLineBreak '\n' = true)]
  | c :: l', r, h => by
    have hc := h c (List.mem_cons_self _ _)
    have hcr : ¬ c = '\r' := fun he => absurd (he ▸ hc) (by decide)
    have hcb : ¬ isLineBreak c = true := by simp [hc]
    rw [List.cons_append]
    conv_lhs => unfold splitLines
    rw [if_neg hcr, if_neg hcb,
      splitLines_append l' r (fun d hd => h d (List.mem_cons_of_mem _ hd))]

theorem joinNl_flatten : ∀ ls : List Str,
    joinNl ls ++ (if ls.isEmpty then [] else ['\n']) =
      (ls.map (fun l => l ++ ['\n'])).flatten
  | [] => rfl
  | [l] => by simp [joinNl]
  | l :: l2 :: ls => by
    have ih := joinNl_flatten (l2 :: ls)
    simp only [List.isEmpty_cons] at ih ⊢
    simp only [joinNl, List.map_cons, List.flatten_cons] at ih ⊢
    rw [← ih]
    simp [List.append_assoc]

theorem saveText_eq_flatten (cs : List Contact) :
    saveText cs = ((cs.map (fun c => saveLine c ++ ['\n']))).flatten := by
  show joinNl (cs.map saveLine) ++ (if (cs.map saveLine).isEmpty then [] else ['\n']) = _
  rw [joinNl_flatten (cs.map saveLine), List.map_map]
  rfl

theorem pyStrip_ne_nil_of_mem (s : Str) (c : Char) (hc : c ∈ s)
    (hns : pyIsSpace c = false) : pyStrip s ≠ [] := by
  intro h
  unfold pyStrip at h
  rw [List.rdropWhile_eq_nil_iff] at h
  have hsplit := List.takeWhile_append_dropWhile (p := pyIsSpace) (l := s)
  rw [← hsplit] at hc
  rcases List.mem_append.mp hc with h1 | h1
  · exact absurd (List.mem_takeWhile_imp h1) (by simp [hns])
  · exact absurd (h c h1) (by simp [hns])

theorem pySplitTab_saveLine (c : Contact) (h1 : cleanField c.name)
    (h2 : cleanField c.phone) (h3 : cleanField c.comment) :
    pySplitTab (saveLine c) = [intToStr c.id, c.name, c.phone, c.comment] := by
  unfold saveLine
  rw [replNl_id c.name (fun ch hch => not_break_ne_nl (h1.2 ch hch).2),
    replNl_id c.phone (fun ch hch => not_break_ne_nl (h2.2 ch hch).2),
    replNl_id c.comment (fun ch hch => not_break_ne_nl (h3.2 ch hch).2)]
  have hsh : intToStr c.id ++ '\t' :: c.name ++ '\t' :: c.phone ++ '\t' :: c.comment =
      intToStr c.id ++ '\t' :: (c.name ++ '\t' :: (c.phone ++ '\t' :: c.comment)) := by
    simp [List.append_assoc]
  rw [hsh]
  rw [pySplitTab_append _ _ (intToStr_no_tab c.id)]
  rw [pySplitTab_append _ _ (fun ch hch => (h1.2 ch hch).1)]
  rw [pySplitTab_append _ _ (fun ch hch => (h2.2 ch hch).1)]
  rw [pySplitTab_no_tab _ (fun ch hch => (h3.2 ch hch).1)]

theorem parseLine_saveLine (c : Contact) (h1 : cleanField c.name)
    (h2 : cleanField c.phone) (h3 : cleanField c.comment) :
    parseLine (saveLine c) = .ok c := by
  unfold parseLine
  rw [pySplitTab_saveLine c h1 h2 h3]
  rw [show padTo4 [intToStr c.id, c.name, c.phone, c.comment] =
    [intToStr c.id, c.name, c.phone, c.comment] from by simp [padTo4]]
  simp only [List.getD_cons_zero, List.getD_cons_succ]
  rw [pyInt_intToStr, h1.1, h2.1, h3.1]

theorem saveLine_no_break (c : Contact) (h1 : cleanField c.name)
    (h2 : cleanField c.phone) (h3 : cleanField c.comment) :
    ∀ ch ∈ saveLine c, isLineBreak ch = false := by
  intro ch hch
  unfold saveLine at hch
  rw [replNl_id c.name (fun d hd => not_break_ne_nl (h1.2 d hd).2),
    replNl_id c.phone (fun d hd => not_break_ne_nl (h2.2 d hd).2),
    replNl_id c.comment (fun d hd => not_break_ne_nl (h3.2 d hd).2)] at hch
  simp only [List.mem_append, List.mem_cons] at hch
  rcases hch with ((hi | (rfl | hn)) | (rfl | hp)) | (rfl | hcm)
  · exact intToStr_no_break c.id ch hi
  · decide
  · exact (h1.2 ch hn).2
  · decide
  · exact (h2.2 ch hp).2
  · decide
  · exact (h3.2 ch hcm).2

theorem saveLine_nonblank (c : Contact) : pyStrip (saveLine c) ≠ [] := by
  rcases hi : intToStr c.id with - | ⟨c0, t0⟩
  · exact absurd hi (intToStr_ne_nil c.id)
  · have hmem : c0 ∈ saveLine c := by
      unfold saveLine
      apply List.mem_append.mpr
      left
      apply List.mem_append.mpr
      left
      apply List.mem_append.mpr
      left
      rw [hi]
      exact List.mem_cons_self _ _
    have hc0 : c0 ∈ intToStr c.id := by rw [hi]; exact List.mem_cons_self _ _
    apply pyStrip_ne_nil_of_mem _ c0 hmem
    rcases intToStr_chars c.id c0 hc0 with hd | rfl
    · exact isDigit_not_space hd
    · decide

theorem load_save_lines : ∀ cs : List Contact,
    (∀ c ∈ cs, cleanField c.name ∧ cleanField c.phone ∧ cleanField c.comment) →
    loadLines (splitLines ((cs.map (fun c => saveLine c ++ ['\n'])).flatten)) = .ok cs
  | [], _ => rfl
  | c :: rest, h => by
    obtain ⟨h1, h2, h3⟩ := h c (List.mem_cons_self _ _)
    have hrest := fun d hd => h d (List.mem_cons_of_mem _ hd)
    simp only [List.map_cons, List.flatten_cons, List.append_assoc, List.singleton_append]
    rw [splitLines_append _ _ (saveLine_no_break c h1 h2 h3)]
    simp only [loadLines]
    rw [if_neg (by simpa [List.isEmpty_iff] using saveLine_nonblank c)]
    rw [parseLine_saveLine c h1 h2 h3]
    rw [load_save_lines rest hrest]
    rfl

/-- C3 claims the round trip holds for every list of Contacts; it does not:
a field with surrounding whitespace comes back stripped, because `load`
strips every field. -/
theorem C3_counterexample :
    TxtStorage.load (TxtStorage.save [⟨1, " A ".data, "123456".data, []⟩]) =
      .ok [⟨1, "A".data, "123456".data, []⟩] ∧
    (⟨1, "A".data, "123456".data, []⟩ : Contact) ≠ ⟨1, " A ".data, "123456".data, []⟩ :=
  ⟨rfl, by decide⟩

/-- C3 (amended): saving a list of contacts and loading it back yields an
equal list in the same order, provided each field is strip-fixed (no
surrounding whitespace) and contains no tab and no line-break character —
the format limitations the spec itself notes (newlines are replaced by a
space on save, tabs are not escaped, and `load` strips every field). -/
theorem C3_roundtrip : ∀ cs : List Contact,
    (∀ c ∈ cs, cleanField c.name ∧ cleanField c.phone ∧ cleanField c.comment) →
    TxtStorage.load (TxtStorage.save cs) = .ok cs := by
  intro cs h
  show loadLines (splitLines (saveText cs)) = .ok cs
  rw [saveText_eq_flatten]
  exact load_save_lines cs h

/-- Witness for C3 at a concrete input. -/
theorem C3_roundtrip_witness :
    (∀ c ∈ [(⟨1, "A".data, "123456".data, []⟩ : Contact)],
      cleanField c.name ∧ cleanField c.phone ∧ cleanField c.comment) ∧
    TxtStorage.load (TxtStorage.save [(⟨1, "A".data, "123456".data, []⟩ : Contact)]) =
      .ok [⟨1, "A".data, "123456".data, []⟩] :=
  ⟨by decide, C3_roundtrip _ (by decide)⟩

end Phone
